import Mathlib

/-!
# Verification of the Kubra outage-map scraper (`code/scrape.py`)

A shallow embedding of the scraper's core logic:

* quadkey tiles and the point-in-tile geometry test (`point_in_tile`),
* the fetch loop with its two retry policies (transient-error backoff and
  anchor-tile time realignment) (`fetch`),
* the tile-traversal scheduler with quadtree subdivision (`scrape_go`),
* outage-record processing (single events, itemized clusters, zoom-in
  clusters) (`process_outage`, `process_body`),
* the per-job snapshot step of `main` including the cursor advance
  (`job_step`),
* the enumeration-code mirror and its persistence (`setdefault`,
  `insert_or_ignore`),
* the etr (estimated-restoration-time) encoding including the
  timezone-offset normalization and an ISO-8601 timestamp parser modelling
  `datetime.fromisoformat(...).timestamp()` (`etr_encode`),
* the per-column normalization of categorical fields in `save`
  (`enum_field`).

Machine integers do not occur (Python integers are unbounded); times are
epoch seconds as `Int`.  Network responses are an explicit environment
`Env` mapping a (query time, tile) pair to a response, and the geographic
bounding box of a tile (computed by the external `pyquadkey2` library in
the source) is a component `toGeo` of that environment.
-/

namespace Outages

/-- A quadkey tile: the path from the quadtree root, one quadrant digit per
level.  `pyquadkey2.quadkey.from_str('03201011')` is the list
`[0, 3, 2, 0, 1, 0, 1, 1]`. -/
abbrev Tile := List (Fin 4)

/-- The four children of a tile, as produced by `tile.children()`: the four
quadrants one level deeper. -/
def children (t : Tile) : List Tile :=
  [t ++ [0], t ++ [1], t ++ [2], t ++ [3]]

/-- The geographic bounding box of a tile as the quadkey library reports it:
`to_geo(ANCHOR_SW)` and `to_geo(ANCHOR_NE)`, each in (lat, lon) order. -/
structure TileGeo where
  sw : ℚ × ℚ
  ne : ℚ × ℚ
  deriving DecidableEq

/-- `point_in_tile` (scrape.py lines 58-66): test whether the given
(lon, lat) pair is in the tile with the given bounding box.  The point is
in lon-lat order (as produced by the polyline decoder) whereas the
bounding-box corners are in lat-lon order. -/
def point_in_tile (p : ℚ × ℚ) (g : TileGeo) : Bool :=
  decide (g.sw.2 ≤ p.1 ∧ p.1 ≤ g.ne.2) && decide (g.sw.1 ≤ p.2 ∧ p.2 ≤ g.ne.1)

/-- The description object of an outage record: the fields of
`outage['desc']` that the scraper reads (`cluster`, `cust_a`, `etr` and the
enumerated categorical columns).  `cust_a` is the customer count
`outage['desc']['cust_a']['val']`. -/
structure Desc where
  cluster : Bool
  cust_a : Int
  etr : String
  cause : Option String
  crew_status : Option String
  reported_problem : Option String
  deriving DecidableEq

/-- One raw outage record of a response body.  `subs` is
`outage['desc']['outages']`, the optional itemized sub-event list of a
cluster; `point` is the decoded single-point geometry. -/
structure Outage where
  point : ℚ × ℚ
  title : String
  desc : Desc
  subs : Option (List Desc)
  deriving DecidableEq

/-- A collected event triple `(p, outage_ix, desc)` as appended to
`events` in `scrape`. -/
abbrev Event := (ℚ × ℚ) × Nat × Desc

/-- An HTTP response for one request, classified the way `scrape` reads it:
success with a decoded JSON body, 403 forbidden, or any other non-success
status. -/
inductive Resp where
  | ok (body : List Outage)
  | forbidden
  | err (status : Nat)
  deriving DecidableEq

/-- The external world of one run: the upstream server (response for each
(query time, tile) pair) and the tile geometry of the quadkey library. -/
structure Env where
  http : Int → Tile → Resp
  toGeo : Tile → TileGeo

/-- A site's configured top-level tiles (`site['top_tiles']`). -/
structure Site where
  top_tiles : List Tile

/-- `query_time_increment = timedelta(minutes = 15)`, in seconds. -/
def query_time_increment : Int := 15 * 60

/-- `subquery_time_increment = timedelta(seconds = 30)`, in seconds. -/
def subquery_time_increment : Int := 30

/-- `subquery_time_max_dist = timedelta(minutes = 1, seconds = 30)`, in
seconds. -/
def subquery_time_max_dist : Int := 90

/-- `max_tries = 3`. -/
def max_tries : Nat := 3

/-- `sleep_ranges_seconds['retry'] = (15*60, 16*60)`: the bounds, in
seconds, of the randomized backoff sleep before a transient-error retry. -/
def sleep_ranges_retry : Int × Int := (15 * 60, 16 * 60)

/-- `na_like_values = ('Not Supplied',)`. -/
def na_like_values : List String := ["Not Supplied"]

/-- A fatal error: an assertion failure in record processing, or
`ValueError('Retries exceeded:', url, status, reason)`; the url is
determined by the query time and tile. -/
inductive Err where
  | assertFail
  | retriesExceeded (tile : Tile) (t : Int) (status : Nat)
  deriving DecidableEq

/-- Outcome of the inner fetch loop (scrape.py lines 150-179) for one tile:
success with the body and the (possibly realignment-advanced) query time,
non-fatal no-data (the `break` cases that leave `r` non-ok, after which the
outer loop `continue`s), a fatal retries-exceeded error, or fuel
exhaustion of the embedding. -/
inductive FetchRes where
  | success (body : List Outage) (t : Int)
  | noData (t : Int)
  | fatal (e : Err)
  | fuelOut
  deriving DecidableEq

/-- The inner request loop of `scrape` (lines 150-177).  `anchor` is
`site['top_tiles'][0]`, `t0` is `time_initial`, `t` is the current
`the_time` and `tries` the attempt counter before the pending request.
On "forbidden" for the anchor tile the query time advances by 30 s and the
counter resets, until the drift from `t0` exceeds 90 s; on "forbidden" for
any other tile the loop gives up at once; on any other non-success status
the identical request is retried until `tries` reaches `max_tries`, at
which point the whole run fails.  Recursion is fuelled; real executions
need only a bounded amount of fuel. -/
def fetch (env : Env) (anchor : Tile) (t0 : Int) (tile : Tile) :
    Nat → Int → Nat → FetchRes
  | 0, _, _ => .fuelOut
  | fuel + 1, t, tries =>
    match env.http t tile with
    | .ok body => .success body t
    | .forbidden =>
      if tile = anchor then
        if t + subquery_time_increment - t0 > subquery_time_max_dist then
          .noData (t + subquery_time_increment)
        else
          fetch env anchor t0 tile fuel (t + subquery_time_increment) 0
      else
        .noData t
    | .err s =>
      if tries + 1 ≥ max_tries then .fatal (.retriesExceeded tile t s)
      else fetch env anchor t0 tile fuel t (tries + 1)

/-- The zoom-in enqueue step (scrape.py lines 208-210): for each of the
tile's four children, if the record's point falls in the child and the
child is not already queued, append it to the queue. -/
def enqueue_children (env : Env) (p : ℚ × ℚ) (tile : Tile) (queue : List Tile) :
    List Tile :=
  (children tile).foldl
    (fun q c => if point_in_tile p (env.toGeo c) ∧ c ∉ q then q ++ [c] else q)
    queue

/-- Processing of one raw outage record (scrape.py lines 181-210), given
the current queue (after the current tile was popped) and the events
collected so far.  A failed `assert` is the fatal `Err.assertFail`.
A cluster's sub-event list is itemized only when it is Python-truthy,
i.e. neither `None` nor the empty list. -/
def process_outage (env : Env) (tile : Tile) (o : Outage)
    (queue : List Tile) (events : List Event) :
    Except Err (List Tile × List Event) :=
  if o.desc.cluster = false then
    if o.title = "Outage Information" ∧ o.subs = none then
      .ok (queue, events ++ [(o.point, 1, o.desc)])
    else
      .error .assertFail
  else if o.title ≠ "Area Outage" then
    .error .assertFail
  else
    match o.subs with
    | some (s :: ss) =>
      if o.desc.cust_a = ((s :: ss).map Desc.cust_a).sum then
        .ok (queue, events ++ ((s :: ss).enum.map fun is => (o.point, is.1 + 1, is.2)))
      else
        .error .assertFail
    | _ => .ok (enqueue_children env o.point tile queue, events)

/-- Processing of a whole response body, record by record (the `for outage
in r.json()['file_data']` loop). -/
def process_body (env : Env) (tile : Tile) :
    List Outage → List Tile → List Event → Except Err (List Tile × List Event)
  | [], queue, events => .ok (queue, events)
  | o :: os, queue, events =>
    match process_outage env tile o queue events with
    | .ok (q, evs) => process_body env tile os q evs
    | .error e => .error e

/-- Outcome of one snapshot traversal, carrying in every case the list of
tiles popped from the queue and fetched, in order. -/
inductive ScrapeRes where
  | done (events : List Event) (t : Int) (fetched : List Tile)
  | fatal (e : Err) (fetched : List Tile)
  | fuelOut (fetched : List Tile)
  deriving DecidableEq

/-- The tiles fetched during the traversal, in order. -/
def ScrapeRes.fetched : ScrapeRes → List Tile
  | .done _ _ f => f
  | .fatal _ f => f
  | .fuelOut f => f

/-- The `while tiles:` traversal loop of `scrape` (lines 147-210): pop the
front tile, fetch it at the current time, on success process its records
(which may enqueue children and collect events), thread the possibly
advanced time into all subsequent fetches, and record the popped tile.
`fetchFuel` fuels each inner fetch loop and `fuel` the outer loop. -/
def scrape_go (env : Env) (anchor : Tile) (t0 : Int) (fetchFuel : Nat) :
    Nat → List Tile → Int → List Event → List Tile → ScrapeRes
  | 0, _, _, _, fetched => .fuelOut fetched
  | _ + 1, [], t, events, fetched => .done events t fetched
  | fuel + 1, tile :: rest, t, events, fetched =>
    match fetch env anchor t0 tile fetchFuel t 0 with
    | .success body t1 =>
      match process_body env tile body rest events with
      | .ok (q, evs) =>
        scrape_go env anchor t0 fetchFuel fuel q t1 evs (fetched ++ [tile])
      | .error e => .fatal e (fetched ++ [tile])
    | .noData t1 =>
      scrape_go env anchor t0 fetchFuel fuel rest t1 events (fetched ++ [tile])
    | .fatal e => .fatal e (fetched ++ [tile])
    | .fuelOut => .fuelOut (fetched ++ [tile])

/-- `scrape(site, the_time)` (lines 141-212): traverse one snapshot
starting from the site's top tiles, with `time_initial = the_time` and the
anchor tile `site['top_tiles'][0]`. -/
def scrape (env : Env) (site : Site) (fetchFuel fuel : Nat) (the_time : Int) :
    ScrapeRes :=
  scrape_go env site.top_tiles.headI the_time fetchFuel fuel
    site.top_tiles the_time [] []

/-- One iteration of the job loop in `main` (lines 281-297): scrape the
snapshot at the job's `time_next`, and on success commit, recording the
events at the actual (possibly drifted) timestamp `time_actual` while
advancing the stored cursor to `time_next + query_time_increment` computed
from the originally requested time.  Returns
`(timestamp the rows are saved at, new stored time_next)`; `none` on a
fatal error or fuel exhaustion. -/
def job_step (env : Env) (site : Site) (fetchFuel fuel : Nat)
    (time_next : Int) : Option (Int × Int) :=
  match scrape env site fetchFuel fuel time_next with
  | .done _ time_actual _ => some (time_actual, time_next + query_time_increment)
  | _ => none

/-- `enums[ec].setdefault(meaning, len(enums[ec]))` (line 229) on the
in-memory enumeration mirror, modelled as an insertion-ordered association
list from meaning to code: a new meaning is appended with the next code,
an existing meaning keeps its code. -/
def setdefault (e : List (String × Nat)) (m : String) : List (String × Nat) :=
  match e.lookup m with
  | some _ => e
  | none => e ++ [(m, e.length)]

/-- `insert or ignore into Enumeration_{ec} values (?, ?)` (lines 253-256):
the row is appended unless it conflicts with an existing row on either
unique column (`code` is the primary key, `meaning` is unique). -/
def insert_or_ignore (tab : List (Nat × String)) (row : Nat × String) :
    List (Nat × String) :=
  if tab.any fun r => r.1 = row.1 ∨ r.2 = row.2 then tab else tab ++ [row]

/-- The first-seen accumulation of distinct strings, used to state the
order in which `setdefault` assigns codes. -/
def first_seen (acc : List String) (ms : List String) : List String :=
  ms.foldl (fun acc m => if m ∈ acc then acc else acc ++ [m]) acc

/-- The numeric value of a decimal digit character; `none` otherwise. -/
def digitVal (c : Char) : Option Nat :=
  if c.isDigit then some (c.toNat - 48) else none

/-- Parse exactly two decimal digits. -/
def parse2 : List Char → Option (Nat × List Char)
  | a :: b :: rest => do
    let x ← digitVal a
    let y ← digitVal b
    pure (10 * x + y, rest)
  | _ => none

/-- Parse exactly four decimal digits. -/
def parse4 : List Char → Option (Nat × List Char)
  | a :: b :: c :: d :: rest => do
    let x ← digitVal a
    let y ← digitVal b
    let z ← digitVal c
    let w ← digitVal d
    pure (1000 * x + 100 * y + 10 * z + w, rest)
  | _ => none

/-- Consume one expected character. -/
def expectChar (c : Char) : List Char → Option (List Char)
  | x :: rest => if x = c then some rest else none
  | [] => none

/-- Gregorian leap-year test. -/
def is_leap (y : Nat) : Bool :=
  (y % 4 = 0 ∧ y % 100 ≠ 0) ∨ y % 400 = 0

/-- Days in a month of the proleptic Gregorian calendar. -/
def days_in_month (y m : Nat) : Nat :=
  if m = 2 then (if is_leap y then 29 else 28)
  else if m = 4 ∨ m = 6 ∨ m = 9 ∨ m = 11 then 30
  else 31

/-- Days from 1970-01-01 to the given civil date (proleptic Gregorian), by
the standard era/year-of-era formula. -/
def days_from_civil (y m d : Nat) : Int :=
  let y1 := if m ≤ 2 then y - 1 else y
  let era := y1 / 400
  let yoe := y1 % 400
  let mp := if m > 2 then m - 3 else m + 9
  let doy := (153 * mp + 2) / 5 + (d - 1)
  let doe := yoe * 365 + yoe / 4 - yoe / 100 + doy
  (era * 146097 + doe : Int) - 719468

/-- Parse the time-of-day part `HH[:MM[:SS]]`, returning the remaining
characters (a timezone offset, if any). -/
def parse_hms (cs : List Char) : Option (Nat × Nat × Nat × List Char) := do
  let (h, cs) ← parse2 cs
  match expectChar ':' cs with
  | none => pure (h, 0, 0, cs)
  | some cs1 => do
    let (mi, cs2) ← parse2 cs1
    match expectChar ':' cs2 with
    | none => pure (h, mi, 0, cs2)
    | some cs3 => do
      let (s, cs4) ← parse2 cs3
      pure (h, mi, s, cs4)

/-- Parse a trailing timezone offset `±HH:MM` into seconds; an absent
offset means the datetime is naive and Python's `timestamp()` applies the
system-local offset `localOffset`. -/
def parse_offset (localOffset : Int) : List Char → Option Int
  | [] => some localOffset
  | sgn :: rest =>
    if sgn = '+' ∨ sgn = '-' then do
      let (oh, rest1) ← parse2 rest
      let rest2 ← expectChar ':' rest1
      let (om, rest3) ← parse2 rest2
      if rest3 = [] ∧ oh ≤ 23 ∧ om ≤ 59 then
        pure (if sgn = '+' then ((oh * 3600 + om * 60 : Nat) : Int)
              else -((oh * 3600 + om * 60 : Nat) : Int))
      else none
    else none

/-- Modelled from the spec and the Python standard library (not part of
this repository): `datetime.fromisoformat(s).timestamp()` for strings of
the shape `YYYY-MM-DD[<sep>HH[:MM[:SS]][±HH:MM]]`, as epoch seconds.
The offset, when present, must contain the colon separator; a naive
datetime is interpreted at the fixed system-local offset `localOffset`.
`none` models a raised `ValueError`. -/
def fromisoformat_timestamp (localOffset : Int) (s : String) : Option Int := do
  let cs := s.data
  let (y, cs1) ← parse4 cs
  let cs2 ← expectChar '-' cs1
  let (mo, cs3) ← parse2 cs2
  let cs4 ← expectChar '-' cs3
  let (d, cs5) ← parse2 cs4
  if 1 ≤ y ∧ 1 ≤ mo ∧ mo ≤ 12 ∧ 1 ≤ d ∧ d ≤ days_in_month y mo then
    match cs5 with
    | [] => pure (days_from_civil y mo d * 86400 - localOffset)
    | _sep :: cs6 => do
      let (h, mi, sec, cs7) ← parse_hms cs6
      if h ≤ 23 ∧ mi ≤ 59 ∧ sec ≤ 59 then do
        let off ← parse_offset localOffset cs7
        pure (days_from_civil y mo d * 86400 +
          (h * 3600 + mi * 60 + sec : Nat) - off)
      else none
  else none

/-- The regex substitution `re.sub(r'([+-]\d\d)(\d\d)\Z', r'\1:\2', s)`
(line 243): when the string ends in a sign followed by four digits, insert
a colon between the two digit pairs. -/
def normalize_tz_offset (s : String) : String :=
  match s.data.reverse with
  | d4 :: d3 :: d2 :: d1 :: sgn :: rest =>
    if (sgn = '+' ∨ sgn = '-') ∧ d1.isDigit ∧ d2.isDigit ∧ d3.isDigit ∧ d4.isDigit then
      String.mk ((d4 :: d3 :: ':' :: d2 :: d1 :: sgn :: rest).reverse)
    else s
  | _ => s

/-- The etr column computation in `save` (lines 238-245): `"ETR-NULL"`
becomes SQL null, `"ETR-EXP"` becomes the sentinel `-1`, and anything else
is parsed as a timestamp after the timezone-offset normalization.  The
outer `none` models the run aborting with `ValueError` on an unparsable
string. -/
def etr_encode (localOffset : Int) (etr : String) : Option (Option Int) :=
  if etr = "ETR-NULL" then some none
  else if etr = "ETR-EXP" then some (some (-1))
  else (fromisoformat_timestamp localOffset (normalize_tz_offset etr)).map some

/-- A value stored in an enumeration column of an `Events` row: SQL null,
a raw string (Python stores the falsy string itself through
`outage_desc[ec] and enums[ec][outage_desc[ec]]`), or an integer code. -/
inductive Cell where
  | null
  | str (s : String)
  | code (n : Nat)
  deriving DecidableEq

/-- The handling of one categorical field of one row in `save`: na-like
replacement (lines 226-227), conditional code allocation (lines 228-229),
and the value stored in the row (line 246), which is the Python expression
`outage_desc[ec] and enums[ec][outage_desc[ec]]`.  The input is the raw
field value (`none` models Python `None`). -/
def enum_field (enums : List (String × Nat)) (v0 : Option String) :
    List (String × Nat) × Cell :=
  let v : Option String :=
    match v0 with
    | some s => if s ∈ na_like_values then none else some s
    | none => none
  match v with
  | none => (enums, Cell.null)
  | some s =>
    if s = "" then (enums, Cell.str s)
    else
      let enums1 := setdefault enums s
      (enums1, Cell.code ((enums1.lookup s).getD 0))

/-- Proper descendant in the quadtree: `b` extends the path `a` by at
least one digit. -/
def properExt (a b : Tile) : Prop := ∃ s, s ≠ [] ∧ b = a ++ s

/-- The traversal invariant behind the no-refetch property: the fetched
tiles and the queue are jointly duplicate-free, and no fetched or queued
tile is a proper descendant of a queued tile. -/
def TileInv (fetched queue : List Tile) : Prop :=
  (fetched ++ queue).Nodup ∧
  ∀ a ∈ queue, ∀ b ∈ fetched ++ queue, ¬ properExt a b

/-- The single configured top tile `'03201011'` of the `nyc` site. -/
def nycTile : Tile := [0, 3, 2, 0, 1, 0, 1, 1]

/-- The `nyc` site of the configuration. -/
def nycSite : Site := ⟨[nycTile]⟩

/-- A degenerate bounding box used by the concrete test environments. -/
def geo0 : TileGeo := ⟨(0, 0), (0, 0)⟩

/-- Test environment: every request is forbidden. -/
def envForb : Env := ⟨fun _ _ => .forbidden, fun _ => geo0⟩

/-- Test environment: every request fails with HTTP 500. -/
def envErr : Env := ⟨fun _ _ => .err 500, fun _ => geo0⟩

/-- Test environment: forbidden before t = 60, empty success from t = 60
on.  Starting a snapshot at t = 0, the anchor realignment drifts the
timestamp to 60 and succeeds there. -/
def envDrift : Env :=
  ⟨fun t _ => if t < 60 then .forbidden else .ok [], fun _ => geo0⟩

/-- A sub-event description with the given customer count. -/
def descSub (n : Int) : Desc := ⟨false, n, "ETR-NULL", none, none, none⟩

/-- A cluster record with three itemized sub-events summing to the
reported total of 6. -/
def oItemized : Outage :=
  ⟨(0, 0), "Area Outage", ⟨true, 6, "ETR-NULL", none, none, none⟩,
    some [descSub 1, descSub 2, descSub 3]⟩

/-- The same cluster record with a wrong reported total. -/
def oMismatch : Outage :=
  ⟨(0, 0), "Area Outage", ⟨true, 5, "ETR-NULL", none, none, none⟩,
    some [descSub 1, descSub 2, descSub 3]⟩

/-- A cluster record with no itemized sub-event list. -/
def oZoom : Outage :=
  ⟨(0, 0), "Area Outage", ⟨true, 6, "ETR-NULL", none, none, none⟩, none⟩

end Outages

namespace Outages

-- ------------------------------------------------------------
-- Helper lemmas
-- ------------------------------------------------------------

theorem properExt_irrefl (a : Tile) : ¬ properExt a a := by
  rintro ⟨s, hs, hb⟩
  have := congrArg List.length hb
  simp at this
  exact hs this

theorem properExt_trans {a b c : Tile} (h1 : properExt a b) (h2 : properExt b c) :
    properExt a c := by
  obtain ⟨s, hs, rfl⟩ := h1
  obtain ⟨u, hu, rfl⟩ := h2
  exact ⟨s ++ u, by simp [hs], by simp⟩

theorem properExt_child {t c : Tile} (hc : c ∈ children t) : properExt t c := by
  simp only [children, List.mem_cons, List.mem_singleton, List.not_mem_nil, or_false] at hc
  rcases hc with rfl | rfl | rfl | rfl <;> exact ⟨_, by simp, rfl⟩

theorem properExt_snoc {q t : Tile} {d : Fin 4} (h : properExt q (t ++ [d])) :
    properExt q t ∨ q = t := by
  obtain ⟨s, hs, heq⟩ := h
  obtain rfl | ⟨s', b, rfl⟩ := s.eq_nil_or_concat
  · exact absurd rfl hs
  · rw [List.concat_eq_append, ← List.append_assoc] at heq
    obtain ⟨h1, -⟩ := List.append_inj' heq.symm (by simp)
    rcases eq_or_ne s' [] with rfl | hne
    · right; simpa using h1
    · left; exact ⟨s', hne, h1.symm⟩

end Outages

namespace Outages

theorem foldl_enqueue_spec (env : Env) (p : ℚ × ℚ) (L : List Tile) :
    ∀ q : List Tile, ∃ extra,
      L.foldl (fun q c => if point_in_tile p (env.toGeo c) ∧ c ∉ q then q ++ [c] else q) q
          = q ++ extra ∧
        (∀ c ∈ extra, c ∈ L) ∧ (q.Nodup → (q ++ extra).Nodup) := by
  induction L with
  | nil =>
    intro q
    exact ⟨[], by simp, by simp, fun h => by simpa using h⟩
  | cons c L ih =>
    intro q
    simp only [List.foldl_cons]
    by_cases hc : point_in_tile p (env.toGeo c) ∧ c ∉ q
    · rw [if_pos hc]
      obtain ⟨extra, heq, hmem, hnd⟩ := ih (q ++ [c])
      refine ⟨c :: extra, ?_, ?_, ?_⟩
      · rw [heq, List.append_assoc, List.singleton_append]
      · intro x hx
        rcases List.mem_cons.1 hx with rfl | hx
        · exact List.mem_cons_self _ _
        · exact List.mem_cons_of_mem _ (hmem x hx)
      · intro hq
        have h1 : (q ++ [c]).Nodup := by
          simp [List.nodup_append, hq, hc.2]
        have := hnd h1
        rwa [List.append_assoc, List.singleton_append] at this
    · rw [if_neg hc]
      obtain ⟨extra, heq, hmem, hnd⟩ := ih q
      exact ⟨extra, heq, fun x hx => List.mem_cons_of_mem _ (hmem x hx), hnd⟩

theorem enqueue_children_spec (env : Env) (p : ℚ × ℚ) (tile : Tile)
    (q : List Tile) :
    ∃ extra, enqueue_children env p tile q = q ++ extra ∧
      (∀ c ∈ extra, c ∈ children tile) ∧
      (q.Nodup → (enqueue_children env p tile q).Nodup) := by
  obtain ⟨extra, heq, hmem, hnd⟩ := foldl_enqueue_spec env p (children tile) q
  refine ⟨extra, heq, hmem, fun h => ?_⟩
  unfold enqueue_children
  rw [heq]
  exact hnd h

theorem process_outage_queue_spec {env : Env} {tile : Tile} {o : Outage}
    {q : List Tile} {evs : List Event} {q' : List Tile} {evs' : List Event}
    (h : process_outage env tile o q evs = .ok (q', evs')) :
    ∃ extra, q' = q ++ extra ∧ (∀ c ∈ extra, c ∈ children tile) ∧
      (q.Nodup → q'.Nodup) := by
  unfold process_outage at h
  split at h
  · split at h
    · simp only [Except.ok.injEq, Prod.mk.injEq] at h
      obtain ⟨rfl, rfl⟩ := h
      exact ⟨[], by simp, by simp, fun hq => hq⟩
    · simp at h
  · split at h
    · simp at h
    · split at h
      · split at h
        · simp only [Except.ok.injEq, Prod.mk.injEq] at h
          obtain ⟨rfl, rfl⟩ := h
          exact ⟨[], by simp, by simp, fun hq => hq⟩
        · simp at h
      · simp only [Except.ok.injEq, Prod.mk.injEq] at h
        obtain ⟨rfl, rfl⟩ := h
        obtain ⟨extra, heq, hmem, hnd⟩ := enqueue_children_spec env o.point tile q
        exact ⟨extra, heq, hmem, hnd⟩

theorem process_body_cons_ok {env : Env} {tile : Tile} {o : Outage}
    {os : List Outage} {q : List Tile} {evs : List Event} {q1 : List Tile}
    {evs1 : List Event}
    (hpo : process_outage env tile o q evs = .ok (q1, evs1)) :
    process_body env tile (o :: os) q evs = process_body env tile os q1 evs1 := by
  simp only [process_body, hpo]

theorem process_body_cons_err {env : Env} {tile : Tile} {o : Outage}
    {os : List Outage} {q : List Tile} {evs : List Event} {e : Err}
    (hpo : process_outage env tile o q evs = .error e) :
    process_body env tile (o :: os) q evs = .error e := by
  simp only [process_body, hpo]

theorem process_body_queue_spec {env : Env} {tile : Tile} (body : List Outage) :
    ∀ {q : List Tile} {evs : List Event} {q' : List Tile} {evs' : List Event},
      process_body env tile body q evs = .ok (q', evs') →
      ∃ extra, q' = q ++ extra ∧ (∀ c ∈ extra, c ∈ children tile) ∧
        (q.Nodup → q'.Nodup) := by
  induction body with
  | nil =>
    intro q evs q' evs' h
    simp only [process_body, Except.ok.injEq, Prod.mk.injEq] at h
    obtain ⟨rfl, rfl⟩ := h
    exact ⟨[], by simp, by simp, fun hq => hq⟩
  | cons o os ih =>
    intro q evs q' evs' h
    rcases hpo : process_outage env tile o q evs with e | ⟨q1, evs1⟩
    · rw [process_body_cons_err hpo] at h
      simp at h
    · rw [process_body_cons_ok hpo] at h
      obtain ⟨e1, rfl, hm1, hn1⟩ := process_outage_queue_spec hpo
      obtain ⟨e2, he2, hm2, hn2⟩ := ih h
      refine ⟨e1 ++ e2, by rw [he2, List.append_assoc], ?_, ?_⟩
      · intro x hx
        rcases List.mem_append.1 hx with hx | hx
        · exact hm1 x hx
        · exact hm2 x hx
      · intro hq
        exact hn2 (hn1 hq)

end Outages

namespace Outages

theorem properExt_length {a b : Tile} (h : properExt a b) : a.length < b.length := by
  obtain ⟨s, hs, rfl⟩ := h
  have : 0 < s.length := List.length_pos.2 hs
  simp only [List.length_append]
  omega

theorem children_eq {t c : Tile} (hc : c ∈ children t) : ∃ d, c = t ++ [d] := by
  simp only [children, List.mem_cons, List.not_mem_nil, or_false] at hc
  rcases hc with rfl | rfl | rfl | rfl
  exacts [⟨0, rfl⟩, ⟨1, rfl⟩, ⟨2, rfl⟩, ⟨3, rfl⟩]

theorem TileInv_fetched_nodup {f q : List Tile} (h : TileInv f q) : f.Nodup :=
  (List.nodup_append.1 h.1).1

theorem TileInv_step {fetched : List Tile} {tile : Tile} {rest extra : List Tile}
    (hinv : TileInv fetched (tile :: rest))
    (hsub : ∀ c ∈ extra, c ∈ children tile)
    (hnd : (rest ++ extra).Nodup) :
    TileInv (fetched ++ [tile]) (rest ++ extra) := by
  obtain ⟨hnd0, hext⟩ := hinv
  have htile_mem : tile ∈ tile :: rest := List.mem_cons_self _ _
  have htile_all : tile ∈ fetched ++ tile :: rest := by simp
  have hnotin : ∀ c ∈ extra, c ∉ fetched ++ tile :: rest := by
    intro c hc hmem
    exact hext tile htile_mem c hmem (properExt_child (hsub c hc))
  have htile_notin_rest : tile ∉ rest := by
    have h1 : (tile :: rest).Nodup := (List.nodup_append.1 hnd0).2.1
    exact (List.nodup_cons.1 h1).1
  constructor
  · have hre : (fetched ++ [tile]) ++ (rest ++ extra) =
        (fetched ++ tile :: rest) ++ extra := by
      simp
    rw [hre, List.nodup_append]
    refine ⟨hnd0, (List.nodup_append.1 hnd).2.1, ?_⟩
    intro x hx hx2
    exact hnotin x hx2 hx
  · intro a ha b hb hpe
    have hb' : b ∈ fetched ++ tile :: rest ∨ b ∈ extra := by
      simp only [List.mem_append, List.mem_cons, List.mem_singleton] at hb ⊢
      tauto
    rcases List.mem_append.1 ha with ha | ha
    · have ha' : a ∈ tile :: rest := List.mem_cons_of_mem _ ha
      rcases hb' with hb1 | hb2
      · exact hext a ha' b hb1 hpe
      · obtain ⟨d, rfl⟩ := children_eq (hsub b hb2)
        rcases properExt_snoc hpe with hp | rfl
        · exact hext a ha' tile htile_all hp
        · exact htile_notin_rest ha
    · obtain ⟨d, rfl⟩ := children_eq (hsub a ha)
      have hpt : properExt tile (tile ++ [d]) := ⟨[d], by simp, rfl⟩
      rcases hb' with hb1 | hb2
      · exact hext tile htile_mem b hb1 (properExt_trans hpt hpe)
      · obtain ⟨d', rfl⟩ := children_eq (hsub b hb2)
        have := properExt_length hpe
        simp [List.length_append] at this

theorem TileInv_pop {fetched : List Tile} {tile : Tile} {rest : List Tile}
    (hinv : TileInv fetched (tile :: rest)) :
    TileInv (fetched ++ [tile]) rest := by
  have hrest : (rest ++ ([] : List Tile)).Nodup := by
    have h1 : (tile :: rest).Nodup := (List.nodup_append.1 hinv.1).2.1
    simpa using (List.nodup_cons.1 h1).2
  have := @TileInv_step fetched tile rest [] hinv (by simp) hrest
  simpa using this

theorem scrape_go_cons_success {env : Env} {anchor : Tile} {t0 : Int}
    {ffuel fuel : Nat} {tile : Tile} {rest : List Tile} {t : Int}
    {events : List Event} {fetched : List Tile} {body : List Outage} {t1 : Int}
    {q : List Tile} {evs : List Event}
    (hf : fetch env anchor t0 tile ffuel t 0 = .success body t1)
    (hp : process_body env tile body rest events = .ok (q, evs)) :
    scrape_go env anchor t0 ffuel (fuel + 1) (tile :: rest) t events fetched =
      scrape_go env anchor t0 ffuel fuel q t1 evs (fetched ++ [tile]) := by
  simp only [scrape_go, hf, hp]

theorem scrape_go_cons_success_err {env : Env} {anchor : Tile} {t0 : Int}
    {ffuel fuel : Nat} {tile : Tile} {rest : List Tile} {t : Int}
    {events : List Event} {fetched : List Tile} {body : List Outage} {t1 : Int}
    {e : Err}
    (hf : fetch env anchor t0 tile ffuel t 0 = .success body t1)
    (hp : process_body env tile body rest events = .error e) :
    scrape_go env anchor t0 ffuel (fuel + 1) (tile :: rest) t events fetched =
      .fatal e (fetched ++ [tile]) := by
  simp only [scrape_go, hf, hp]

theorem scrape_go_cons_noData {env : Env} {anchor : Tile} {t0 : Int}
    {ffuel fuel : Nat} {tile : Tile} {rest : List Tile} {t : Int}
    {events : List Event} {fetched : List Tile} {t1 : Int}
    (hf : fetch env anchor t0 tile ffuel t 0 = .noData t1) :
    scrape_go env anchor t0 ffuel (fuel + 1) (tile :: rest) t events fetched =
      scrape_go env anchor t0 ffuel fuel rest t1 events (fetched ++ [tile]) := by
  simp only [scrape_go, hf]

theorem scrape_go_cons_fatal {env : Env} {anchor : Tile} {t0 : Int}
    {ffuel fuel : Nat} {tile : Tile} {rest : List Tile} {t : Int}
    {events : List Event} {fetched : List Tile} {e : Err}
    (hf : fetch env anchor t0 tile ffuel t 0 = .fatal e) :
    scrape_go env anchor t0 ffuel (fuel + 1) (tile :: rest) t events fetched =
      .fatal e (fetched ++ [tile]) := by
  simp only [scrape_go, hf]

theorem scrape_go_cons_fuelOut {env : Env} {anchor : Tile} {t0 : Int}
    {ffuel fuel : Nat} {tile : Tile} {rest : List Tile} {t : Int}
    {events : List Event} {fetched : List Tile}
    (hf : fetch env anchor t0 tile ffuel t 0 = .fuelOut) :
    scrape_go env anchor t0 ffuel (fuel + 1) (tile :: rest) t events fetched =
      .fuelOut (fetched ++ [tile]) := by
  simp only [scrape_go, hf]

theorem scrape_go_fetched_nodup (env : Env) (anchor : Tile) (t0 : Int)
    (ffuel : Nat) :
    ∀ (fuel : Nat) (queue : List Tile) (t : Int) (events : List Event)
      (fetched : List Tile), TileInv fetched queue →
      (scrape_go env anchor t0 ffuel fuel queue t events fetched).fetched.Nodup := by
  intro fuel
  induction fuel with
  | zero =>
    intro queue t events fetched hinv
    simpa [scrape_go, ScrapeRes.fetched] using TileInv_fetched_nodup hinv
  | succ n ih =>
    intro queue t events fetched hinv
    cases queue with
    | nil =>
      simpa [scrape_go, ScrapeRes.fetched] using TileInv_fetched_nodup hinv
    | cons tile rest =>
      have hpop := TileInv_pop hinv
      have hnd1 : (fetched ++ [tile]).Nodup := TileInv_fetched_nodup hpop
      have hrest : rest.Nodup := by
        have h1 : (tile :: rest).Nodup := (List.nodup_append.1 hinv.1).2.1
        exact (List.nodup_cons.1 h1).2
      rcases hf : fetch env anchor t0 tile ffuel t 0 with ⟨body, t1⟩ | t1 | e | _
      · rcases hp : process_body env tile body rest events with e | ⟨q, evs⟩
        · rw [scrape_go_cons_success_err hf hp]
          simpa [ScrapeRes.fetched] using hnd1
        · rw [scrape_go_cons_success hf hp]
          apply ih
          obtain ⟨extra, rfl, hmem, hndq⟩ := process_body_queue_spec body hp
          exact TileInv_step hinv hmem (hndq hrest)
      · rw [scrape_go_cons_noData hf]
        exact ih _ _ _ _ hpop
      · rw [scrape_go_cons_fatal hf]
        simpa [ScrapeRes.fetched] using hnd1
      · rw [scrape_go_cons_fuelOut hf]
        simpa [ScrapeRes.fetched] using hnd1

end Outages

namespace Outages

/-- C8: for every (longitude, latitude) point and every tile bounding box,
`point_in_tile` returns true iff the longitude lies within the tile's
[west, east] bound and the latitude within its [south, north] bound, both
inclusive, correctly swapping the (lat, lon) order of the bounding-box
accessor; in particular the four boundary corners of a well-formed box are
considered inside. -/
theorem C8_point_in_tile_iff (p : ℚ × ℚ) (g : TileGeo) :
    (point_in_tile p g = true ↔
      (g.sw.2 ≤ p.1 ∧ p.1 ≤ g.ne.2) ∧ (g.sw.1 ≤ p.2 ∧ p.2 ≤ g.ne.1)) ∧
    (g.sw.1 ≤ g.ne.1 → g.sw.2 ≤ g.ne.2 →
      point_in_tile (g.sw.2, g.sw.1) g = true ∧
      point_in_tile (g.ne.2, g.ne.1) g = true ∧
      point_in_tile (g.sw.2, g.ne.1) g = true ∧
      point_in_tile (g.ne.2, g.sw.1) g = true) := by
  constructor
  · simp [point_in_tile, and_assoc]
  · intro h1 h2
    simp [point_in_tile, le_refl, h1, h2]

/-- Witness for C8 at a concrete box: both inclusive-corner conclusions,
obtained from the theorem with its hypotheses discharged. -/
theorem C8_point_in_tile_iff_witness :
    point_in_tile ((0 : ℚ), (2 : ℚ)) ⟨(0, 0), (2, 3)⟩ = true ∧
    point_in_tile ((3 : ℚ), (0 : ℚ)) ⟨(0, 0), (2, 3)⟩ = true := by
  have h := (C8_point_in_tile_iff ((0 : ℚ), (2 : ℚ)) ⟨(0, 0), (2, 3)⟩).2
    (by norm_num) (by norm_num)
  exact ⟨h.2.2.1, h.2.2.2⟩

/-- C9: within one snapshot traversal, no tile is fetched twice: if the
seeded top-level tiles are distinct and none is a descendant of another,
then the list of tiles popped from the work queue and fetched by `scrape`
has no duplicates, whatever the responses and however the traversal
ends. -/
theorem C9_no_tile_fetched_twice (env : Env) (site : Site)
    (fetchFuel fuel : Nat) (t : Int)
    (hnd : site.top_tiles.Nodup)
    (hanti : ∀ a ∈ site.top_tiles, ∀ b ∈ site.top_tiles, ¬ properExt a b) :
    (scrape env site fetchFuel fuel t).fetched.Nodup := by
  unfold scrape
  apply scrape_go_fetched_nodup
  constructor
  · simpa using hnd
  · intro a ha b hb
    exact hanti a ha b (by simpa using hb)

/-- Witness for C9 with the configured nyc site (a single top tile) and a
server that always answers forbidden. -/
theorem C9_no_tile_fetched_twice_witness :
    (scrape envForb nycSite 5 5 0).fetched.Nodup := by
  apply C9_no_tile_fetched_twice envForb nycSite 5 5 0 (by decide)
  intro a ha b hb
  simp only [nycSite, List.mem_singleton] at ha hb
  subst ha
  subst hb
  exact properExt_irrefl _

/-- C2: handling of a "forbidden" response.  For the anchor tile the query
timestamp advances by 30 s and the request is retried with the attempt
counter reset to 0, as long as the total drift from the original timestamp
stays within 90 s; once the advanced timestamp would drift beyond 90 s the
fetch is abandoned non-fatally with the advanced timestamp, and a
non-fatally abandoned fetch hands its (possibly advanced) timestamp on to
the traversal of all remaining tiles of the snapshot.  For a non-anchor
tile, "forbidden" is non-fatal, causes no retry and no time shift. -/
theorem C2_forbidden_handling (env : Env) (anchor : Tile) (t0 : Int)
    (tile : Tile) (fuel : Nat) (t : Int) (tries : Nat) :
    (env.http t tile = .forbidden → tile = anchor → t + 30 - t0 ≤ 90 →
      fetch env anchor t0 tile (fuel + 1) t tries =
        fetch env anchor t0 tile fuel (t + 30) 0) ∧
    (env.http t tile = .forbidden → tile = anchor → t + 30 - t0 > 90 →
      fetch env anchor t0 tile (fuel + 1) t tries = .noData (t + 30)) ∧
    (env.http t tile = .forbidden → tile ≠ anchor →
      fetch env anchor t0 tile (fuel + 1) t tries = .noData t) ∧
    (∀ (ffuel sfuel : Nat) (rest : List Tile) (events : List Event)
        (fetched : List Tile) (t1 : Int),
      fetch env anchor t0 tile ffuel t 0 = .noData t1 →
      scrape_go env anchor t0 ffuel (sfuel + 1) (tile :: rest) t events fetched =
        scrape_go env anchor t0 ffuel sfuel rest t1 events (fetched ++ [tile])) := by
  refine ⟨?_, ?_, ?_, ?_⟩
  · intro h ha hle
    subst ha
    simp only [fetch, h]
    rw [if_pos trivial,
      if_neg (by simp only [subquery_time_increment, subquery_time_max_dist]; omega)]
    simp only [subquery_time_increment]
  · intro h ha hgt
    subst ha
    simp only [fetch, h]
    rw [if_pos trivial,
      if_pos (by simp only [subquery_time_increment, subquery_time_max_dist]; omega)]
    simp only [subquery_time_increment]
  · intro h hne
    simp only [fetch, h]
    rw [if_neg hne]
  · intro ffuel sfuel rest events fetched t1 hf
    exact scrape_go_cons_noData hf

/-- Witness for C2: the four conclusions at concrete inputs against an
always-forbidden server: an in-bound anchor retry (drift 30 s), the
out-of-bound abandonment (drift would reach 100 s), the non-anchor skip,
and the threading of the abandoned fetch's timestamp into the rest of the
traversal. -/
theorem C2_forbidden_handling_witness :
    fetch envForb nycTile 0 nycTile 4 0 5 = fetch envForb nycTile 0 nycTile 3 30 0 ∧
    fetch envForb nycTile 0 nycTile 4 70 0 = .noData 100 ∧
    fetch envForb nycTile 0 ([1] : Tile) 4 0 0 = .noData 0 ∧
    scrape_go envForb nycTile 0 1 3 ([([1] : Tile)]) 5 [] [] =
      scrape_go envForb nycTile 0 1 2 [] 5 [] [[1]] := by
  refine ⟨?_, ?_, ?_, ?_⟩
  · exact (C2_forbidden_handling envForb nycTile 0 nycTile 3 0 5).1 rfl rfl (by norm_num)
  · exact (C2_forbidden_handling envForb nycTile 0 nycTile 3 70 0).2.1 rfl rfl (by norm_num)
  · exact (C2_forbidden_handling envForb nycTile 0 [1] 3 0 0).2.2.1 rfl (by decide)
  · exact (C2_forbidden_handling envForb nycTile 0 [1] 0 5 0).2.2.2 1 2 [] [] [] 5 rfl

/-- C3: on any non-success, non-forbidden response the identical request
(same tile, same timestamp) is retried — after a backoff sleep drawn from
the 15-16 minute range `sleep_ranges_retry` — and once 3 total attempts
have failed the run aborts fatally with the request's tile, timestamp and
status; a fatal fetch aborts the whole traversal rather than skipping the
tile. -/
theorem C3_transient_retry (env : Env) (anchor : Tile) (t0 : Int)
    (tile : Tile) (fuel : Nat) (t : Int) (tries : Nat) (s : Nat) :
    (env.http t tile = .err s → tries + 1 < 3 →
      fetch env anchor t0 tile (fuel + 1) t tries =
        fetch env anchor t0 tile fuel t (tries + 1)) ∧
    (env.http t tile = .err s → tries + 1 ≥ 3 →
      fetch env anchor t0 tile (fuel + 1) t tries =
        .fatal (.retriesExceeded tile t s)) ∧
    (∀ (ffuel sfuel : Nat) (rest : List Tile) (events : List Event)
        (fetched : List Tile) (e : Err),
      fetch env anchor t0 tile ffuel t 0 = .fatal e →
      scrape_go env anchor t0 ffuel (sfuel + 1) (tile :: rest) t events fetched =
        .fatal e (fetched ++ [tile])) ∧
    sleep_ranges_retry = (900, 960) := by
  refine ⟨?_, ?_, ?_, rfl⟩
  · intro h hlt
    simp only [fetch, h, max_tries]
    rw [if_neg (by omega)]
  · intro h hge
    simp only [fetch, h, max_tries]
    rw [if_pos (by omega)]
  · intro ffuel sfuel rest events fetched e hf
    exact scrape_go_cons_fatal hf

/-- Witness for C3 against an always-HTTP-500 server: the first retry
keeps the same timestamp and tile, the third attempt fails fatally, and
the fatal fetch aborts the whole traversal. -/
theorem C3_transient_retry_witness :
    fetch envErr nycTile 0 nycTile 4 0 0 = fetch envErr nycTile 0 nycTile 3 0 1 ∧
    fetch envErr nycTile 0 nycTile 4 0 2 = .fatal (.retriesExceeded nycTile 0 500) ∧
    scrape_go envErr nycTile 0 3 3 [nycTile] 0 [] [] =
      .fatal (.retriesExceeded nycTile 0 500) ([] ++ [nycTile]) ∧
    sleep_ranges_retry = (900, 960) := by
  refine ⟨?_, ?_, ?_, ?_⟩
  · exact (C3_transient_retry envErr nycTile 0 nycTile 3 0 0 500).1 rfl (by norm_num)
  · exact (C3_transient_retry envErr nycTile 0 nycTile 3 0 2 500).2.1 rfl (by norm_num)
  · exact (C3_transient_retry envErr nycTile 0 nycTile 2 0 0 500).2.2.1 3 2 [] [] [] _ rfl
  · exact (C3_transient_retry envErr nycTile 0 nycTile 0 0 0 500).2.2.2

end Outages

namespace Outages

theorem enumFrom_map_add_one {α : Type} (l : List α) :
    ∀ n : Nat, ((l.enumFrom n).map fun is => is.1 + 1) = List.range' (n + 1) l.length := by
  induction l with
  | nil => intro n; simp
  | cons a l ih =>
    intro n
    rw [List.enumFrom_cons, List.map_cons, List.length_cons, List.range'_succ]
    rw [ih (n + 1)]

theorem enum_map_add_one {α : Type} (l : List α) :
    (l.enum.map fun is => is.1 + 1) = List.range' 1 l.length :=
  enumFrom_map_add_one l 0

theorem children_nodup (t : Tile) : (children t).Nodup := by
  simp [children, List.nodup_cons]

/-- C4: for a cluster record with an itemized sub-event list, each
sub-event is emitted tagged with its 1-based position (the tags are
exactly 1..n in list order), the run fails fatally when the cluster's
aggregate customer count differs from the sum of the sub-events' counts,
and when they agree this check raises no fatal error. -/
theorem C4_cluster_sum_check (env : Env) (tile : Tile) (o : Outage)
    (queue : List Tile) (events : List Event) (s : Desc) (ss : List Desc) :
    o.desc.cluster = true → o.title = "Area Outage" → o.subs = some (s :: ss) →
    (o.desc.cust_a ≠ ((s :: ss).map Desc.cust_a).sum →
      process_outage env tile o queue events = .error .assertFail) ∧
    (o.desc.cust_a = ((s :: ss).map Desc.cust_a).sum →
      process_outage env tile o queue events =
        .ok (queue, events ++
          ((s :: ss).enum.map fun is => (o.point, is.1 + 1, is.2)))) ∧
    ((s :: ss).enum.map fun is => is.1 + 1) = List.range' 1 (s :: ss).length := by
  intro hc ht hs
  refine ⟨?_, ?_, enum_map_add_one _⟩
  · intro hne
    simp only [process_outage, hc, hs, ht]
    simp only [Bool.true_eq_false, if_false, ne_eq, not_true_eq_false, ite_false]
    rw [if_neg hne]
  · intro he
    simp only [process_outage, hc, hs, ht]
    simp only [Bool.true_eq_false, if_false, ne_eq, not_true_eq_false, ite_false]
    rw [if_pos he]

/-- Witness for C4: a concrete cluster with three sub-events counting
1 + 2 + 3; the run fails on a reported total of 5 and emits the three
tagged sub-events on the correct total of 6. -/
theorem C4_cluster_sum_check_witness :
    process_outage envForb nycTile oMismatch [] [] = .error .assertFail ∧
    process_outage envForb nycTile oItemized [] [] =
      .ok ([], [] ++ (([descSub 1, descSub 2, descSub 3] : List Desc).enum.map
        fun is => (oItemized.point, is.1 + 1, is.2))) := by
  have h1 := C4_cluster_sum_check envForb nycTile oMismatch [] []
    (descSub 1) [descSub 2, descSub 3] rfl rfl rfl
  have h2 := C4_cluster_sum_check envForb nycTile oItemized [] []
    (descSub 1) [descSub 2, descSub 3] rfl rfl rfl
  exact ⟨h1.1 (by decide), h2.2.1 (by decide)⟩

end Outages

namespace Outages

theorem foldl_enqueue_filter (env : Env) (p : ℚ × ℚ) :
    ∀ L : List Tile, L.Nodup → ∀ q : List Tile,
      L.foldl (fun q c => if point_in_tile p (env.toGeo c) ∧ c ∉ q then q ++ [c] else q) q
        = q ++ L.filter fun c => point_in_tile p (env.toGeo c) && decide (c ∉ q) := by
  intro L
  induction L with
  | nil => intro _ q; simp
  | cons c L ih =>
    intro hnd q
    have hcL : c ∉ L := (List.nodup_cons.1 hnd).1
    have hL := (List.nodup_cons.1 hnd).2
    simp only [List.foldl_cons, List.filter_cons]
    by_cases hc : point_in_tile p (env.toGeo c) ∧ c ∉ q
    · have hpred : (point_in_tile p (env.toGeo c) && decide (c ∉ q)) = true := by
        simp [hc.1, hc.2]
      rw [if_pos hc, ih hL (q ++ [c]), hpred, if_pos rfl]
      have hfil : (L.filter fun x => point_in_tile p (env.toGeo x) && decide (x ∉ q ++ [c]))
          = L.filter fun x => point_in_tile p (env.toGeo x) && decide (x ∉ q) := by
        apply List.filter_congr
        intro x hx
        have hxc : x ≠ c := fun hxeq => hcL (hxeq ▸ hx)
        have hdec : decide (x ∉ q ++ [c]) = decide (x ∉ q) :=
          decide_eq_decide.mpr (by simp [List.mem_append, hxc])
        rw [hdec]
      rw [hfil, List.append_assoc, List.singleton_append]
    · have hpred : (point_in_tile p (env.toGeo c) && decide (c ∉ q)) = false := by
        by_cases hpit : point_in_tile p (env.toGeo c) = true
        · have hcq : c ∈ q := by
            by_contra hcq
            exact hc ⟨hpit, hcq⟩
          simp [hcq]
        · simp only [Bool.not_eq_true] at hpit
          simp [hpit]
      rw [if_neg hc, ih hL q, hpred]
      simp only [Bool.false_eq_true, if_false]

theorem enqueue_children_filter (env : Env) (p : ℚ × ℚ) (tile : Tile)
    (q : List Tile) :
    enqueue_children env p tile q =
      q ++ (children tile).filter
        fun c => point_in_tile p (env.toGeo c) && decide (c ∉ q) :=
  foldl_enqueue_filter env p (children tile) (children_nodup tile) q

/-- C5: a cluster record with no itemized sub-event list (Python-falsy:
absent or empty) resolves by zooming in: the queue gains exactly those of
the tile's four children that contain the record's point and are not
already pending, in order; and enqueueing preserves freedom from
duplicates, so a child already pending is never enqueued a second time. -/
theorem C5_cluster_zoom (env : Env) (tile : Tile) (o : Outage)
    (queue : List Tile) (events : List Event) :
    o.desc.cluster = true → o.title = "Area Outage" →
    (o.subs = none ∨ o.subs = some []) →
    process_outage env tile o queue events =
        .ok (enqueue_children env o.point tile queue, events) ∧
    enqueue_children env o.point tile queue =
      queue ++ (children tile).filter
        (fun c => point_in_tile o.point (env.toGeo c) && decide (c ∉ queue)) ∧
    (queue.Nodup → (enqueue_children env o.point tile queue).Nodup) := by
  intro hc ht hsub
  refine ⟨?_, enqueue_children_filter env o.point tile queue, ?_⟩
  · rcases hsub with h | h <;> simp [process_outage, hc, ht, h]
  · intro hnd
    obtain ⟨extra, heq, hmem, hn⟩ := enqueue_children_spec env o.point tile queue
    exact hn hnd

/-- Witness for C5: the concrete zoom cluster over an empty queue; all
four children contain the degenerate point, so exactly the four children
are enqueued, duplicate-free. -/
theorem C5_cluster_zoom_witness :
    process_outage envForb nycTile oZoom [] [] =
      .ok (enqueue_children envForb oZoom.point nycTile [], []) ∧
    enqueue_children envForb oZoom.point nycTile [] =
      [] ++ (children nycTile).filter
        (fun c => point_in_tile oZoom.point (envForb.toGeo c) &&
          decide (c ∉ ([] : List Tile))) ∧
    (enqueue_children envForb oZoom.point nycTile []).Nodup := by
  have h := C5_cluster_zoom envForb nycTile oZoom [] [] rfl rfl (Or.inl rfl)
  exact ⟨h.1, h.2.1, h.2.2 (by simp)⟩

end Outages

namespace Outages

/-- C1 counterexample: starting the snapshot at t0 = 0 against a server
that publishes the data 60 s late, the snapshot's actual timestamp is 60
(the rows are saved there) but the stored cursor is 0 + 900 = 900, not the
60 + 900 = 960 the claim requires. -/
theorem C1_cursor_counterexample :
    job_step envDrift nycSite 10 10 0 = some (60, 900) ∧ (900 : Int) ≠ 60 + 900 :=
  ⟨rfl, by decide⟩

/-- C1 (amended): after a snapshot is processed and committed, the stored
cursor is the originally requested timestamp plus 15 minutes, regardless
of any anchor-tile realignment drift; the drifted actual timestamp is used
for the saved rows but does not enter the cursor. -/
theorem C1_cursor_uses_requested_time (env : Env) (site : Site)
    (fetchFuel fuel : Nat) (t0 tA next : Int)
    (h : job_step env site fetchFuel fuel t0 = some (tA, next)) :
    next = t0 + query_time_increment := by
  unfold job_step at h
  rcases hs : scrape env site fetchFuel fuel t0 with ⟨evs, t1, f⟩ | ⟨e, f⟩ | f
  · rw [hs] at h
    simp only [Option.some.injEq, Prod.mk.injEq] at h
    exact h.2.symm
  · rw [hs] at h
    simp at h
  · rw [hs] at h
    simp at h

/-- Witness for C1 (amended) at the drifting-server counterexample
input. -/
theorem C1_cursor_uses_requested_time_witness :
    job_step envDrift nycSite 10 10 0 = some (60, 900) ∧
      (900 : Int) = 0 + query_time_increment :=
  ⟨rfl, C1_cursor_uses_requested_time envDrift nycSite 10 10 0 60 900 rfl⟩

theorem lookup_append_left (e e2 : List (String × Nat)) (m : String) (c : Nat)
    (h : e.lookup m = some c) : (e ++ e2).lookup m = some c := by
  induction e with
  | nil => simp [List.lookup] at h
  | cons a e ih =>
    obtain ⟨k, v⟩ := a
    rw [List.cons_append]
    cases hmk : m == k with
    | true =>
      simp only [List.lookup, hmk] at h ⊢
      exact h
    | false =>
      simp only [List.lookup, hmk] at h ⊢
      exact ih h

theorem setdefault_preserves_lookup {e : List (String × Nat)} {m : String}
    {c : Nat} (h : e.lookup m = some c) (m' : String) :
    (setdefault e m').lookup m = some c := by
  unfold setdefault
  cases he : e.lookup m' with
  | some _ => exact h
  | none => exact lookup_append_left _ _ _ _ h

theorem foldl_setdefault_preserves_lookup (ms : List String) :
    ∀ (e : List (String × Nat)) (m : String) (c : Nat),
      e.lookup m = some c → (ms.foldl setdefault e).lookup m = some c := by
  induction ms with
  | nil => intro e m c h; simpa using h
  | cons m' ms ih =>
    intro e m c h
    simp only [List.foldl_cons]
    exact ih _ _ _ (setdefault_preserves_lookup h m')

theorem setdefault_wf {e : List (String × Nat)}
    (h : e.map Prod.snd = List.range e.length) (m : String) :
    (setdefault e m).map Prod.snd = List.range (setdefault e m).length := by
  unfold setdefault
  cases e.lookup m with
  | some _ => exact h
  | none => simp [h, List.range_succ]

theorem foldl_setdefault_wf (ms : List String) :
    ∀ e : List (String × Nat), e.map Prod.snd = List.range e.length →
      (ms.foldl setdefault e).map Prod.snd =
        List.range (ms.foldl setdefault e).length := by
  induction ms with
  | nil => intro e h; simpa using h
  | cons m ms ih =>
    intro e h
    simp only [List.foldl_cons]
    exact ih _ (setdefault_wf h m)

theorem lookup_eq_none_iff (e : List (String × Nat)) (m : String) :
    e.lookup m = none ↔ m ∉ e.map Prod.fst := by
  induction e with
  | nil => simp [List.lookup]
  | cons a e ih =>
    obtain ⟨k, v⟩ := a
    cases hmk : m == k with
    | true =>
      have hm : m = k := by simpa using hmk
      simp only [List.lookup, hmk, List.map_cons, List.mem_cons]
      simp [hm]
    | false =>
      have hm : ¬ m = k := by simpa using hmk
      simp only [List.lookup, hmk, List.map_cons, List.mem_cons]
      rw [ih]
      tauto

theorem setdefault_keys (e : List (String × Nat)) (m : String) :
    (setdefault e m).map Prod.fst =
      if m ∈ e.map Prod.fst then e.map Prod.fst else e.map Prod.fst ++ [m] := by
  unfold setdefault
  cases he : e.lookup m with
  | some c =>
    rw [if_pos]
    by_contra hmem
    have hn := (lookup_eq_none_iff e m).2 hmem
    rw [hn] at he
    exact Option.noConfusion he
  | none =>
    rw [if_neg ((lookup_eq_none_iff e m).1 he)]
    simp

end Outages

namespace Outages

theorem foldl_setdefault_keys (ms : List String) :
    ∀ e : List (String × Nat),
      (ms.foldl setdefault e).map Prod.fst = first_seen (e.map Prod.fst) ms := by
  induction ms with
  | nil => intro e; simp [first_seen]
  | cons m ms ih =>
    intro e
    simp only [List.foldl_cons, first_seen]
    rw [ih (setdefault e m), setdefault_keys]
    rfl

/-- C6: enumeration codes are assigned once, monotonically (the codes of
the mirror are always exactly 0, 1, 2, ... in order), in first-seen order
of distinct meaning strings; a meaning's code is never reassigned by later
processing; and persisting with insert-if-absent leaves the stored table
unchanged when the (code, meaning) pair is already present. -/
theorem C6_enum_codes (e : List (String × Nat)) (ms : List String)
    (m : String) (c : Nat) (tab : List (Nat × String)) (row : Nat × String) :
    (e.lookup m = some c → (ms.foldl setdefault e).lookup m = some c) ∧
    (e.map Prod.snd = List.range e.length →
      (ms.foldl setdefault e).map Prod.snd =
        List.range (ms.foldl setdefault e).length) ∧
    (ms.foldl setdefault e).map Prod.fst = first_seen (e.map Prod.fst) ms ∧
    (row ∈ tab → insert_or_ignore tab row = tab) := by
  refine ⟨fun h => foldl_setdefault_preserves_lookup ms e m c h,
    fun h => foldl_setdefault_wf ms e h, foldl_setdefault_keys ms e, ?_⟩
  intro hrow
  unfold insert_or_ignore
  rw [if_pos]
  exact List.any_eq_true.2 ⟨row, hrow, by simp⟩

/-- Witness for C6: a mirror holding meaning "a" with code 0 processes the
stream ["b", "a", "b"]; the code of "a" is preserved, the codes stay
0, 1, 2, ..., the keys are in first-seen order, and re-inserting the
stored pair (0, "a") leaves the table unchanged. -/
theorem C6_enum_codes_witness :
    (["b", "a", "b"].foldl setdefault [("a", 0)]).lookup "a" = some 0 ∧
    (["b", "a", "b"].foldl setdefault [("a", 0)]).map Prod.snd =
      List.range (["b", "a", "b"].foldl setdefault [("a", 0)]).length ∧
    (["b", "a", "b"].foldl setdefault [("a", 0)]).map Prod.fst =
      first_seen (([("a", 0)] : List (String × Nat)).map Prod.fst) ["b", "a", "b"] ∧
    insert_or_ignore [(0, "a")] (0, "a") = [(0, "a")] := by
  have h := C6_enum_codes [("a", 0)] ["b", "a", "b"] "a" 0 [(0, "a")] (0, "a")
  exact ⟨h.1 rfl, h.2.1 (by decide), h.2.2.1, h.2.2.2 (by decide)⟩

/-- C7: the estimated-restoration-time field is encoded as exactly one of
three cases: the literal "ETR-NULL" maps to SQL null, the literal
"ETR-EXP" maps to the reserved sentinel -1, and any other value is parsed
as an ISO-8601-like timestamp to epoch seconds after normalizing a
trailing colon-less timezone offset, so that "2021-07-04T10:00-0500"
yields the same epoch value (1625410800) as "2021-07-04T10:00-05:00". -/
theorem C7_etr_encoding (off : Int) (s : String) :
    etr_encode off "ETR-NULL" = some none ∧
    etr_encode off "ETR-EXP" = some (some (-1)) ∧
    (s ≠ "ETR-NULL" → s ≠ "ETR-EXP" →
      etr_encode off s =
        (fromisoformat_timestamp off (normalize_tz_offset s)).map some) ∧
    normalize_tz_offset "2021-07-04T10:00-0500" = "2021-07-04T10:00-05:00" ∧
    etr_encode off "2021-07-04T10:00-0500" = etr_encode off "2021-07-04T10:00-05:00" ∧
    etr_encode off "2021-07-04T10:00-0500" = some (some 1625410800) := by
  refine ⟨rfl, rfl, ?_, rfl, rfl, rfl⟩
  intro h1 h2
  unfold etr_encode
  rw [if_neg h1, if_neg h2]

/-- Witness for C7: the general third case applied at the colon-less
example string. -/
theorem C7_etr_encoding_witness :
    etr_encode 0 "2021-07-04T10:00-0500" =
      (fromisoformat_timestamp 0
        (normalize_tz_offset "2021-07-04T10:00-0500")).map some :=
  (C7_etr_encoding 0 "2021-07-04T10:00-0500").2.2.1 (by decide) (by decide)

/-- C10: during normalization a categorical field value is replaced by
null exactly when it is the string "Not Supplied", and an enumeration code
is looked up or allocated only for truthy values; for the empty string the
field is neither mapped to null nor assigned a code, the mirror is
unchanged, and the canonical row stores the empty string itself. -/
theorem C10_empty_string_field (enums : List (String × Nat)) (s : String) :
    enum_field enums (some "") = (enums, Cell.str "") ∧
    ((enum_field enums (some s)).2 = Cell.null ↔ s = "Not Supplied") ∧
    (s = "" ∨ s = "Not Supplied" → (enum_field enums (some s)).1 = enums) ∧
    (∀ n : Nat, (enum_field enums (some s)).2 = Cell.code n →
      s ≠ "" ∧ s ≠ "Not Supplied") := by
  by_cases hns : s = "Not Supplied"
  · subst hns
    refine ⟨by simp [enum_field, na_like_values], by simp [enum_field, na_like_values], ?_, ?_⟩
    · intro h
      simp [enum_field, na_like_values]
    · intro n h
      simp [enum_field, na_like_values] at h
  · by_cases hse : s = ""
    · subst hse
      refine ⟨by simp [enum_field, na_like_values], ?_, ?_, ?_⟩
      · simp [enum_field, na_like_values]
      · intro h
        simp [enum_field, na_like_values]
      · intro n h
        simp [enum_field, na_like_values] at h
    · refine ⟨by simp [enum_field, na_like_values], ?_, ?_, ?_⟩
      · simp [enum_field, na_like_values, hns, hse]
      · intro h
        rcases h with h | h
        · exact absurd h hse
        · exact absurd h hns
      · intro n h
        exact ⟨hse, hns⟩

/-- Witness for C10: the null-iff and code cases at the concrete values
"Not Supplied" and "x". -/
theorem C10_empty_string_field_witness :
    enum_field [("a", 0)] (some "") = ([("a", 0)], Cell.str "") ∧
    (enum_field [("a", 0)] (some "Not Supplied")).1 = [("a", 0)] ∧
    ("x" ≠ "" ∧ "x" ≠ "Not Supplied") := by
  have h1 := C10_empty_string_field [("a", 0)] "Not Supplied"
  have h2 := C10_empty_string_field [("a", 0)] "x"
  refine ⟨h1.1, h1.2.2.1 (Or.inr rfl), h2.2.2.2 1 ?_⟩
  decide

end Outages
